import Mathlib

/-!
Shallow embedding of the plaster-effect raster pipeline
(`src/unnamed/part_000`, the `plaster-effect` module) in Lean 4.

Floating-point arithmetic of the source is embedded as exact real
arithmetic; `Float32Array` scalar fields become functions `ℕ → ℝ`
together with an explicit length (indexing is `y * width + x`, as in
the source).  Pixel buffers become functions from coordinates to an
RGBA quadruple of reals.
-/

namespace Plaster

/-- `clamp` from the source: `Math.min(max, Math.max(min, value))`. -/
def clamp {α : Type} [LinearOrder α] (value lo hi : α) : α :=
  min hi (max lo value)

/-- `contrastTransform` from the source: the standard brightness/contrast
remapping pivoting on mid-gray 128, clamped to `[0, 255]`. -/
noncomputable def contrastTransform (value contrast : ℝ) : ℝ :=
  let factor := (259 * (contrast + 255)) / (255 * (259 - contrast))
  clamp (factor * (value - 128) + 128) 0 255

/-- The `c < 0.5` branch of the soft-light blend body, on normalized
values: `2*b*c + b*b*(1 - 2*c)`. -/
noncomputable def softLightLow (b c : ℝ) : ℝ :=
  2 * b * c + b * b * (1 - 2 * c)

/-- The `c ≥ 0.5` branch of the soft-light blend body, on normalized
values: `2*b*(1-c) + sqrt(b)*(2*c - 1)`. -/
noncomputable def softLightHigh (b c : ℝ) : ℝ :=
  2 * b * (1 - c) + Real.sqrt b * (2 * c - 1)

/-- `softLight` from the source: normalizes base and blend to `[0,1]`,
branches at `c = 0.5`, rescales to `[0,255]` and clamps. -/
noncomputable def softLight (base blend : ℝ) : ℝ :=
  let b := base / 255
  let c := blend / 255
  let result := if c < 0.5 then softLightLow b c else softLightHigh b c
  clamp (result * 255) 0 255

/-- Minimum of the first `n` entries of a scalar field (the min-scan
loop of `normaliseArray`; `0` as junk value for an empty field). -/
noncomputable def arrayMin (f : ℕ → ℝ) (n : ℕ) : ℝ :=
  if h : 0 < n then (Finset.range n).inf' (by simpa using h.ne') f else 0

/-- Maximum of the first `n` entries of a scalar field (the max-scan
loop of `normaliseArray`; `0` as junk value for an empty field). -/
noncomputable def arrayMax (f : ℕ → ℝ) (n : ℕ) : ℝ :=
  if h : 0 < n then (Finset.range n).sup' (by simpa using h.ne') f else 0

/-- `normaliseArray` from the source: rescales a field linearly by
`(v - min) / range` where `range = max - min || 1` (the JS `|| 1`
replaces a zero range by `1`). -/
noncomputable def normaliseArray (f : ℕ → ℝ) (n : ℕ) : ℕ → ℝ :=
  let mn := arrayMin f n
  let mx := arrayMax f n
  let range := if mx - mn = 0 then 1 else mx - mn
  fun i => (f i - mn) / range

/-- JavaScript `Math.round`: rounds half-up, i.e. `⌊x + 1/2⌋`. -/
noncomputable def jsRound (x : ℝ) : ℤ :=
  Int.floor (x + 1 / 2)

/-- The blur radius derived from the smoothness setting:
`Math.round(clamp(smoothness, 0, 100) / 18)`. -/
noncomputable def blurRadius (smoothness : ℝ) : ℤ :=
  jsRound (clamp smoothness 0 100 / 18)

/-- Clamped horizontal sample index `clamp(x + k, 0, width - 1)`,
computed in `ℤ` and converted back to an array index. -/
def clampIdx (x : ℤ) (hi : ℤ) : ℕ :=
  (clamp x 0 hi).toNat

/-- Unnormalized Gaussian kernel entry `exp(-(i-radius)² / (2·radius²))`
for `i` ranging over `0, …, 2·radius`. -/
noncomputable def gaussKernel (radius : ℕ) (i : ℕ) : ℝ :=
  Real.exp (-(((i : ℝ) - radius) ^ 2) / (2 * (radius : ℝ) ^ 2))

/-- `kernelSum` from the source: total weight of the raw kernel. -/
noncomputable def kernelSum (radius : ℕ) : ℝ :=
  ∑ i in Finset.range (2 * radius + 1), gaussKernel radius i

/-- Normalized kernel entry `kernel[i] / kernelSum`. -/
noncomputable def kernelNorm (radius : ℕ) (i : ℕ) : ℝ :=
  gaussKernel radius i / kernelSum radius

/-- The horizontal pass of `gaussianBlur`: at `(x, y)`,
`∑ₖ source[y·width + clamp(x+k, 0, width-1)] · kernel[k + radius]`. -/
noncomputable def horizontalPass (source : ℕ → ℝ) (width : ℕ) (radius : ℕ)
    (y x : ℕ) : ℝ :=
  ∑ i in Finset.range (2 * radius + 1),
    source (y * width + clampIdx ((x : ℤ) + i - radius) ((width : ℤ) - 1)) *
      kernelNorm radius i

/-- The vertical pass of `gaussianBlur`: at `(x, y)`,
`∑ₖ horizontal[clamp(y+k, 0, height-1)·width + x] · kernel[k + radius]`. -/
noncomputable def verticalPass (source : ℕ → ℝ) (width height : ℕ) (radius : ℕ)
    (y x : ℕ) : ℝ :=
  ∑ i in Finset.range (2 * radius + 1),
    horizontalPass source width radius
        (clampIdx ((y : ℤ) + i - radius) ((height : ℤ) - 1)) x *
      kernelNorm radius i

/-- `gaussianBlur` from the source: identity for radius `≤ 0`, otherwise
a separable two-pass convolution with replicate-border sampling. -/
noncomputable def gaussianBlur (source : ℕ → ℝ) (width height : ℕ)
    (radius : ℕ) : ℕ → ℝ :=
  if radius = 0 then source
  else fun idx => verticalPass source width height radius (idx / width) (idx % width)

/-- Total of a scalar field over a `width × height` grid. -/
noncomputable def fieldSum (f : ℕ → ℝ) (width height : ℕ) : ℝ :=
  ∑ y in Finset.range height, ∑ x in Finset.range width, f (y * width + x)

/-- The horizontal Sobel kernel `[-1,0,1,-2,0,2,-1,0,1]`. -/
noncomputable def kernelX (i : ℕ) : ℝ :=
  [(-1 : ℝ), 0, 1, -2, 0, 2, -1, 0, 1].getD i 0

/-- The vertical Sobel kernel `[-1,-2,-1,0,0,0,1,2,1]`. -/
noncomputable def kernelY (i : ℕ) : ℝ :=
  [(-1 : ℝ), -2, -1, 0, 0, 0, 1, 2, 1].getD i 0

/-- Horizontal Sobel gradient at interior pixel `(x, y)` (with
`1 ≤ x, y`), accumulated over the 3×3 neighborhood in row-major kernel
order, as in the source's nested `ky`/`kx` loop. -/
noncomputable def sobelGx (map : ℕ → ℝ) (width : ℕ) (y x : ℕ) : ℝ :=
  ∑ ky in Finset.range 3, ∑ kx in Finset.range 3,
    map ((y + ky - 1) * width + (x + kx - 1)) * kernelX (ky * 3 + kx)

/-- Vertical Sobel gradient at interior pixel `(x, y)`. -/
noncomputable def sobelGy (map : ℕ → ℝ) (width : ℕ) (y x : ℕ) : ℝ :=
  ∑ ky in Finset.range 3, ∑ kx in Finset.range 3,
    map ((y + ky - 1) * width + (x + kx - 1)) * kernelY (ky * 3 + kx)

/-- `applySobel` from the source: the result array is zero-initialized
and the loops write `sqrt(gx² + gy²)` only at interior pixels
(`1 ≤ y ≤ height-2`, `1 ≤ x ≤ width-2`). -/
noncomputable def applySobel (map : ℕ → ℝ) (width height : ℕ) : ℕ → ℝ :=
  fun idx =>
    let y := idx / width
    let x := idx % width
    if 1 ≤ y ∧ y + 1 < height ∧ 1 ≤ x ∧ x + 1 < width then
      Real.sqrt (sobelGx map width y x ^ 2 + sobelGy map width y x ^ 2)
    else 0

/-- The record returned by `cropToAspect`. -/
structure CropRegion where
  offsetX : ℝ
  offsetY : ℝ
  cropWidth : ℝ
  cropHeight : ℝ

/-- The pre-zoom crop size of `cropToAspect`: starting from the full
source, the `ratio > aspectRatio` branch shrinks only the width to
`height · aspectRatio`, the other branch shrinks only the height to
`width / aspectRatio`. -/
noncomputable def preCropSize (width height aspectRatio : ℝ) : ℝ × ℝ :=
  if width / height > aspectRatio then (height * aspectRatio, height)
  else (width, width / aspectRatio)

/-- `cropToAspect` from the source: pre-zoom crop size, then division of
both extents by `zoom = clamp(zoomFactor, 0, 60)/100 + 1` and centering. -/
noncomputable def cropToAspect (width height aspectRatio zoomFactor : ℝ) :
    CropRegion :=
  let pre := preCropSize width height aspectRatio
  let zoom := clamp zoomFactor 0 60 / 100 + 1
  let cropWidth := pre.1 / zoom
  let cropHeight := pre.2 / zoom
  ⟨(width - cropWidth) / 2, (height - cropHeight) / 2, cropWidth, cropHeight⟩

/-- The ten numeric knobs of `EffectSettings` from the source. -/
structure EffectSettings where
  depth : ℝ
  luminosity : ℝ
  sheen : ℝ
  matte : ℝ
  smoothness : ℝ
  microDetail : ℝ
  backgroundLift : ℝ
  macroZoom : ℝ
  standHeight : ℝ
  vignette : ℝ

/-- `detailStrength = clamp(settings.microDetail, 0, 100) / 100`. -/
noncomputable def detailStrength (st : EffectSettings) : ℝ :=
  clamp st.microDetail 0 100 / 100

/-- `depthStrength = clamp(settings.depth, 0, 100) / 100`. -/
noncomputable def depthStrength (st : EffectSettings) : ℝ :=
  clamp st.depth 0 100 / 100

/-- `sheenStrength = clamp(settings.sheen, 0, 100) / 100`. -/
noncomputable def sheenStrength (st : EffectSettings) : ℝ :=
  clamp st.sheen 0 100 / 100

/-- `matteStrength = clamp(settings.matte, 0, 100) / 100`. -/
noncomputable def matteStrength (st : EffectSettings) : ℝ :=
  clamp st.matte 0 100 / 100

/-- `luminosityShift = (clamp(settings.luminosity, -50, 50) / 50) * 15`. -/
noncomputable def luminosityShift (st : EffectSettings) : ℝ :=
  clamp st.luminosity (-50) 50 / 50 * 15

/-- The per-pixel body of the tone-mapping loop of `renderPlasterEffect`
(source lines 274–295): contrast transform, luminosity bias, detail
boost, contour boost, highlight soft-light, shadow lift. -/
noncomputable def toneMapValue (st : EffectSettings)
    (v0 nDetail nSobel : ℝ) : ℝ :=
  let v1 := contrastTransform v0 (30 + depthStrength st * 90)
  let v2 := clamp (v1 + luminosityShift st) 0 255
  let micro := (nDetail - 0.5) * 80 * detailStrength st
  let v3 := clamp (v2 + micro) 0 255
  let contour := (nSobel - 0.4) * 140 * depthStrength st
  let v4 := clamp (v3 + contour) 0 255
  let v5 :=
    if v4 > 210 then
      clamp (softLight v4 (v4 + (v4 - 210) * 0.8 * sheenStrength st)) 0 255
    else v4
  if v5 < 80 then clamp (v5 + (80 - v5) * 0.6 * matteStrength st) 0 255
  else v5

/-- The smoothed luminance field: `gaussianBlur(luminance, w, h, blurRadius)`
with the radius derived from the smoothness setting. -/
noncomputable def smoothedField (st : EffectSettings) (lum : ℕ → ℝ)
    (w h : ℕ) : ℕ → ℝ :=
  gaussianBlur lum w h (blurRadius st.smoothness).toNat

/-- The detail residual `luminance[i] - smoothed[i]`. -/
noncomputable def detailSourceField (st : EffectSettings) (lum : ℕ → ℝ)
    (w h : ℕ) : ℕ → ℝ :=
  fun i => lum i - smoothedField st lum w h i

/-- `normalisedDetail = normaliseArray(detailSource)`. -/
noncomputable def normalisedDetail (st : EffectSettings) (lum : ℕ → ℝ)
    (w h : ℕ) : ℕ → ℝ :=
  normaliseArray (detailSourceField st lum w h) (w * h)

/-- `sobelMap = applySobel(smoothed, width, height)`. -/
noncomputable def sobelMapField (st : EffectSettings) (lum : ℕ → ℝ)
    (w h : ℕ) : ℕ → ℝ :=
  applySobel (smoothedField st lum w h) w h

/-- `normalisedSobel = normaliseArray(sobelMap)`. -/
noncomputable def normalisedSobel (st : EffectSettings) (lum : ℕ → ℝ)
    (w h : ℕ) : ℕ → ℝ :=
  normaliseArray (sobelMapField st lum w h) (w * h)

/-- The grayscale value written into all three color channels of pixel
`idx` by the tone-mapping loop, as a function of the luminance field. -/
noncomputable def plasterValue (st : EffectSettings) (lum : ℕ → ℝ)
    (w h : ℕ) (idx : ℕ) : ℝ :=
  toneMapValue st (smoothedField st lum w h idx)
    (normalisedDetail st lum w h idx) (normalisedSobel st lum w h idx)

/-- An RGBA pixel of the drawing surface; channels and alpha in `[0,255]`
(CSS fractional alphas are scaled by 255). -/
structure Pixel where
  r : ℝ
  g : ℝ
  b : ℝ
  a : ℝ

/-- Modelled from the spec: source-over compositing of a non-premultiplied
RGBA source pixel over a destination pixel (the default blend mode of the
abstract drawing surface; the 2D drawing API itself is not under `src/`). -/
noncomputable def sourceOver (src dst : Pixel) : Pixel :=
  let sa := src.a / 255
  let da := dst.a / 255
  let oa := sa + da * (1 - sa)
  if oa = 0 then ⟨0, 0, 0, 0⟩
  else
    ⟨(src.r * sa + dst.r * da * (1 - sa)) / oa,
      (src.g * sa + dst.g * da * (1 - sa)) / oa,
      (src.b * sa + dst.b * da * (1 - sa)) / oa, oa * 255⟩

/-- Modelled from the spec: the multiply blend mode used for the pedestal
side-shadow, on normalized channels with source-over alpha compositing. -/
noncomputable def multiplyBlend (src dst : Pixel) : Pixel :=
  let sa := src.a / 255
  let da := dst.a / 255
  let oa := sa + da * (1 - sa)
  if oa = 0 then ⟨0, 0, 0, 0⟩
  else
    ⟨(src.r * dst.r / 255 * sa * da + src.r * sa * (1 - da) +
          dst.r * da * (1 - sa)) / oa,
      (src.g * dst.g / 255 * sa * da + src.g * sa * (1 - da) +
          dst.g * da * (1 - sa)) / oa,
      (src.b * dst.b / 255 * sa * da + src.b * sa * (1 - da) +
          dst.b * da * (1 - sa)) / oa, oa * 255⟩

/-- Modelled from the spec: linear interpolation between two gradient
stops, componentwise on color and alpha. -/
noncomputable def lerpPixel (p q : Pixel) (t : ℝ) : Pixel :=
  ⟨p.r + (q.r - p.r) * t, p.g + (q.g - p.g) * t, p.b + (q.b - p.b) * t,
    p.a + (q.a - p.a) * t⟩

/-- The background gradient pixel at row `y` (source lines 222–227): a
vertical gradient from `rgba(250,250,247, 0.85 + lift·0.1)` to
`rgba(242,242,236, 0.9 + lift·0.08)` with `lift` from `backgroundLift`. -/
noncomputable def backgroundPixel (st : EffectSettings) (y : ℕ) : Pixel :=
  let lift := clamp st.backgroundLift 0 100 / 100
  lerpPixel ⟨250, 250, 247, (0.85 + lift * 0.1) * 255⟩
    ⟨242, 242, 236, (0.9 + lift * 0.08) * 255⟩ ((y : ℝ) / 1200)

/-- The cleared (transparent black) 900 × 1200 frame after `clearRect`. -/
noncomputable def clearedBuffer : ℕ → ℕ → Pixel := fun _ _ => ⟨0, 0, 0, 0⟩

/-- The frame after painting the background gradient over the cleared
frame. -/
noncomputable def backgroundLayer (st : EffectSettings) : ℕ → ℕ → Pixel :=
  fun x y => sourceOver (backgroundPixel st y) (clearedBuffer x y)

/-- Modelled from the spec: `drawImage` region sampling (draw-raster-region
of the abstract surface), nearest-neighbor from the crop rectangle scaled
to the 900 × 1200 frame. -/
noncomputable def samplePixel (src : ℕ → ℕ → Pixel) (crop : CropRegion)
    (x y : ℕ) : Pixel :=
  src (Int.toNat ⌊crop.offsetX + (x : ℝ) / 900 * crop.cropWidth⌋)
    (Int.toNat ⌊crop.offsetY + (y : ℝ) / 1200 * crop.cropHeight⌋)

/-- The frame after `drawImage` of the cropped source over the background
(source lines 232–242). -/
noncomputable def drawnLayer (st : EffectSettings) (src : ℕ → ℕ → Pixel)
    (srcW srcH : ℕ) : ℕ → ℕ → Pixel :=
  fun x y =>
    sourceOver
      (samplePixel src
        (cropToAspect srcW srcH ((900 : ℝ) / 1200) st.macroZoom) x y)
      (backgroundLayer st x y)

/-- The luminance field read from a frame buffer
(`0.299·R + 0.587·G + 0.114·B`, indexed by `y·900 + x`). -/
noncomputable def bufferLuminance (buf : ℕ → ℕ → Pixel) : ℕ → ℝ :=
  fun idx =>
    (buf (idx % 900) (idx / 900)).r * 0.299 +
      (buf (idx % 900) (idx / 900)).g * 0.587 +
      (buf (idx % 900) (idx / 900)).b * 0.114

/-- The frame after the tone-mapping loop and `putImageData` (source
lines 244–302): every pixel's three color channels are replaced by the
tone-mapped grayscale value, alpha is untouched. -/
noncomputable def tonePassLayer (st : EffectSettings) (buf : ℕ → ℕ → Pixel) :
    ℕ → ℕ → Pixel :=
  fun x y =>
    let v := plasterValue st (bufferLuminance buf) 900 1200 (y * 900 + x)
    ⟨v, v, v, (buf x y).a⟩

/-- The vignette radial-gradient pixel (source lines 304–321): centered
at `(450, 660)` with radii `225` and `840`, from transparent white to
`rgba(210,210,205, 0.35·strength)`. -/
noncomputable def vignettePixel (st : EffectSettings) (x y : ℕ) : Pixel :=
  let vs := clamp st.vignette 0 100 / 100
  let dist := Real.sqrt (((x : ℝ) - 450) ^ 2 + ((y : ℝ) - 660) ^ 2)
  let t := clamp ((dist - 225) / (840 - 225)) 0 1
  lerpPixel ⟨255, 255, 255, 0⟩ ⟨210, 210, 205, 0.35 * vs * 255⟩ t

/-- The frame after the vignette overlay, skipped entirely when the
strength is zero. -/
noncomputable def vignetteLayer (st : EffectSettings) (buf : ℕ → ℕ → Pixel) :
    ℕ → ℕ → Pixel :=
  fun x y =>
    if clamp st.vignette 0 100 / 100 > 0 then
      sourceOver (vignettePixel st x y) (buf x y)
    else buf x y

/-- Pedestal height in pixels: `1200 · clamp(standHeight, 10, 45)/100`. -/
noncomputable def standHeightPx (st : EffectSettings) : ℝ :=
  1200 * (clamp st.standHeight 10 45 / 100)

/-- Pedestal width in pixels: `900 · (0.36 + 0.08 · depthStrength)`. -/
noncomputable def standWidthPx (st : EffectSettings) : ℝ :=
  900 * (0.36 + 0.08 * depthStrength st)

/-- Pedestal left edge: `900/2 - standWidth/2`. -/
noncomputable def standXPos (st : EffectSettings) : ℝ :=
  900 / 2 - standWidthPx st / 2

/-- Pedestal top edge: `1200 - standHeight`. -/
noncomputable def standYPos (st : EffectSettings) : ℝ :=
  1200 - standHeightPx st

/-- The pedestal fill gradient (stops `#ffffff`, `#f3f3f1` at 0.5,
`#e4e4df`), piecewise-linear in the vertical parameter `t`. -/
noncomputable def standFillPixel (t : ℝ) : Pixel :=
  if t < 0.5 then lerpPixel ⟨255, 255, 255, 255⟩ ⟨243, 243, 241, 255⟩ (t * 2)
  else lerpPixel ⟨243, 243, 241, 255⟩ ⟨228, 228, 223, 255⟩ ((t - 0.5) * 2)

/-- The pedestal side-shadow gradient alpha (stops 0.12, 0.05 at 0.25,
0.02 at 0.75, 0.14), piecewise-linear in the diagonal parameter `t`. -/
noncomputable def standShadowAlpha (t : ℝ) : ℝ :=
  if t < 0.25 then 0.12 + (0.05 - 0.12) * (t / 0.25)
  else if t < 0.75 then 0.05 + (0.02 - 0.05) * ((t - 0.25) / 0.5)
  else 0.02 + (0.14 - 0.02) * ((t - 0.75) / 0.25)

/-- The frame after the pedestal fill and its multiplicative side-shadow
(source lines 323–350). -/
noncomputable def standLayer (st : EffectSettings) (buf : ℕ → ℕ → Pixel) :
    ℕ → ℕ → Pixel :=
  fun x y =>
    if standXPos st ≤ (x : ℝ) ∧ (x : ℝ) < standXPos st + standWidthPx st ∧
        standYPos st ≤ (y : ℝ) ∧ (y : ℝ) < standYPos st + standHeightPx st then
      let tFill := ((y : ℝ) - standYPos st) / standHeightPx st
      let filled := sourceOver (standFillPixel tFill) (buf x y)
      let tDiag := (((x : ℝ) - standXPos st) * standWidthPx st +
          ((y : ℝ) - standYPos st) * standHeightPx st) /
        (standWidthPx st ^ 2 + standHeightPx st ^ 2)
      multiplyBlend ⟨0, 0, 0, standShadowAlpha tDiag * 255⟩ filled
    else buf x y

/-- The base contact-shadow gradient alpha (stops 0.18, 0.05 at 0.7, 0),
piecewise-linear in the vertical parameter `t`. -/
noncomputable def baseShadowAlpha (t : ℝ) : ℝ :=
  if t < 0.7 then 0.18 + (0.05 - 0.18) * (t / 0.7)
  else 0.05 + (0 - 0.05) * ((t - 0.7) / 0.3)

/-- The frame after the bottom contact shadow (source lines 352–363);
`basePad = 1200 · 0.04 = 48`. -/
noncomputable def baseShadowLayer (buf : ℕ → ℕ → Pixel) : ℕ → ℕ → Pixel :=
  fun x y =>
    if (1200 : ℝ) - 48 ≤ (y : ℝ) then
      sourceOver
        ⟨0, 0, 0, baseShadowAlpha (((y : ℝ) - (1200 - 48)) / 48) * 255⟩
        (buf x y)
    else buf x y

/-- `renderPlasterEffect` as a frame-buffer transformation: background,
draw, tone map + `putImageData`, vignette, pedestal, contact shadow. -/
noncomputable def renderPlasterEffect (st : EffectSettings)
    (src : ℕ → ℕ → Pixel) (srcW srcH : ℕ) : ℕ → ℕ → Pixel :=
  baseShadowLayer
    (standLayer st
      (vignetteLayer st (tonePassLayer st (drawnLayer st src srcW srcH))))

/-! ### Basic facts about `clamp` -/

theorem clamp_le_hi {α : Type} [LinearOrder α] (value lo hi : α) :
    clamp value lo hi ≤ hi :=
  min_le_left _ _

theorem lo_le_clamp {α : Type} [LinearOrder α] (value lo hi : α)
    (h : lo ≤ hi) : lo ≤ clamp value lo hi :=
  le_min h (le_max_left _ _)

theorem clamp_mono {α : Type} [LinearOrder α] {v₁ v₂ : α} (lo hi : α)
    (h : v₁ ≤ v₂) : clamp v₁ lo hi ≤ clamp v₂ lo hi :=
  min_le_min le_rfl (max_le_max le_rfl h)

theorem clamp_of_mem {α : Type} [LinearOrder α] {value lo hi : α}
    (h₁ : lo ≤ value) (h₂ : value ≤ hi) : clamp value lo hi = value := by
  simp [clamp, max_eq_right h₁, min_eq_right h₂]

/-! ### Facts about `arrayMin` / `arrayMax` -/

theorem arrayMin_le {f : ℕ → ℝ} {n i : ℕ} (hi : i < n) :
    arrayMin f n ≤ f i := by
  unfold arrayMin
  rw [dif_pos (Nat.lt_of_le_of_lt (Nat.zero_le i) hi)]
  exact Finset.inf'_le f (Finset.mem_range.mpr hi)

theorem le_arrayMax {f : ℕ → ℝ} {n i : ℕ} (hi : i < n) :
    f i ≤ arrayMax f n := by
  unfold arrayMax
  rw [dif_pos (Nat.lt_of_le_of_lt (Nat.zero_le i) hi)]
  exact Finset.le_sup' f (Finset.mem_range.mpr hi)

theorem exists_arrayMin {f : ℕ → ℝ} {n : ℕ} (hn : 0 < n) :
    ∃ i, i < n ∧ f i = arrayMin f n := by
  unfold arrayMin
  rw [dif_pos hn]
  obtain ⟨i, hi, hval⟩ :=
    Finset.exists_mem_eq_inf' (s := Finset.range n)
      (Finset.nonempty_range_iff.mpr hn.ne') f
  exact ⟨i, Finset.mem_range.mp hi, hval.symm⟩

theorem exists_arrayMax {f : ℕ → ℝ} {n : ℕ} (hn : 0 < n) :
    ∃ i, i < n ∧ f i = arrayMax f n := by
  unfold arrayMax
  rw [dif_pos hn]
  obtain ⟨i, hi, hval⟩ :=
    Finset.exists_mem_eq_sup' (s := Finset.range n)
      (Finset.nonempty_range_iff.mpr hn.ne') f
  exact ⟨i, Finset.mem_range.mp hi, hval.symm⟩

theorem le_arrayMin {f : ℕ → ℝ} {n : ℕ} {c : ℝ} (hn : 0 < n)
    (h : ∀ i, i < n → c ≤ f i) : c ≤ arrayMin f n := by
  unfold arrayMin
  rw [dif_pos hn]
  exact Finset.le_inf' _ f fun i hi => h i (Finset.mem_range.mp hi)

theorem arrayMax_le {f : ℕ → ℝ} {n : ℕ} {c : ℝ} (hn : 0 < n)
    (h : ∀ i, i < n → f i ≤ c) : arrayMax f n ≤ c := by
  unfold arrayMax
  rw [dif_pos hn]
  exact Finset.sup'_le _ _ fun i hi => h i (Finset.mem_range.mp hi)

theorem arrayMin_le_arrayMax {f : ℕ → ℝ} {n : ℕ} (hn : 0 < n) :
    arrayMin f n ≤ arrayMax f n := by
  obtain ⟨i, hi, hval⟩ := exists_arrayMin (f := f) hn
  exact hval ▸ le_arrayMax hi

/-- Samples of a normalized field lie in `[0, 1]` (shared by C1, C3). -/
theorem normaliseArray_mem_unit {f : ℕ → ℝ} {n i : ℕ} (hi : i < n) :
    0 ≤ normaliseArray f n i ∧ normaliseArray f n i ≤ 1 := by
  have hn : 0 < n := Nat.lt_of_le_of_lt (Nat.zero_le i) hi
  have hmin := arrayMin_le (f := f) hi
  have hmax := le_arrayMax (f := f) hi
  unfold normaliseArray
  by_cases hc : arrayMax f n - arrayMin f n = 0
  · have hfi : f i = arrayMin f n := by linarith
    simp [hc, hfi]
  · have hlt : 0 < arrayMax f n - arrayMin f n :=
      lt_of_le_of_ne (by linarith [arrayMin_le_arrayMax (f := f) hn])
        (Ne.symm hc)
    simp only [if_neg hc]
    constructor
    · exact div_nonneg (by linarith) (le_of_lt hlt)
    · rw [div_le_one hlt]
      linarith

/-- The tone-mapped value always lies in `[0, 255]`: every exit path of
the loop body ends in a `clamp` to that interval (shared by C1). -/
theorem toneMapValue_mem (st : EffectSettings) (v0 nDetail nSobel : ℝ) :
    0 ≤ toneMapValue st v0 nDetail nSobel ∧
      toneMapValue st v0 nDetail nSobel ≤ 255 := by
  simp only [toneMapValue, contrastTransform]
  split_ifs <;>
    exact ⟨lo_le_clamp _ 0 255 (by norm_num), clamp_le_hi _ 0 255⟩

/-- Normalizing the all-zero field gives the all-zero field (shared by
C10). -/
theorem normaliseArray_const_zero {n : ℕ} (hn : 0 < n) (i : ℕ) :
    normaliseArray (fun _ => (0 : ℝ)) n i = 0 := by
  unfold normaliseArray arrayMin arrayMax
  rw [dif_pos hn, dif_pos hn]
  simp

/-! ### Compositing facts for the opaque-source argument -/

/-- Source-over with a fully opaque source replaces the destination pixel
(shared by C9). -/
theorem sourceOver_covers (src dst : Pixel) (h : src.a = 255) :
    sourceOver src dst = ⟨src.r, src.g, src.b, 255⟩ := by
  unfold sourceOver
  rw [h]
  norm_num

/-- Drawing a fully opaque source covers every pixel of the frame, so the
drawn layer does not depend on the background beneath it (shared by C9). -/
theorem drawnLayer_covers (st : EffectSettings) (src : ℕ → ℕ → Pixel)
    (srcW srcH : ℕ) (h : ∀ x y, (src x y).a = 255) :
    drawnLayer st src srcW srcH = fun x y =>
      ⟨(samplePixel src
          (cropToAspect srcW srcH ((900 : ℝ) / 1200) st.macroZoom) x y).r,
        (samplePixel src
          (cropToAspect srcW srcH ((900 : ℝ) / 1200) st.macroZoom) x y).g,
        (samplePixel src
          (cropToAspect srcW srcH ((900 : ℝ) / 1200) st.macroZoom) x y).b,
        255⟩ := by
  funext x y
  unfold drawnLayer
  exact sourceOver_covers _ _ (h _ _)

/-! ### Gaussian kernel and radius-1 conservation lemmas -/

theorem gaussKernel_pos (radius i : ℕ) : 0 < gaussKernel radius i :=
  Real.exp_pos _

theorem kernelSum_pos (radius : ℕ) : 0 < kernelSum radius :=
  Finset.sum_pos (fun i _ => gaussKernel_pos radius i) (by simp)

theorem kernelNorm_sum (radius : ℕ) :
    ∑ i in Finset.range (2 * radius + 1), kernelNorm radius i = 1 := by
  unfold kernelNorm
  rw [← Finset.sum_div]
  exact div_self (ne_of_gt (kernelSum_pos radius))

theorem kernelNorm_one_symm : kernelNorm 1 0 = kernelNorm 1 2 := by
  norm_num [kernelNorm, gaussKernel]

theorem sum_range_three (f : ℕ → ℝ) :
    ∑ i in Finset.range 3, f i = f 0 + f 1 + f 2 := by
  rw [Finset.sum_range_succ, Finset.sum_range_succ, Finset.sum_range_succ,
    Finset.sum_range_zero]
  ring

theorem clampIdx_sub_one {x n : ℕ} (hx : x < n) :
    clampIdx ((x : ℤ) - 1) ((n : ℤ) - 1) = x - 1 := by
  simp [clampIdx, clamp]
  omega

theorem clampIdx_self {x n : ℕ} (hx : x < n) :
    clampIdx ((x : ℤ)) ((n : ℤ) - 1) = x := by
  simp [clampIdx, clamp]
  omega

theorem clampIdx_add_one {x n : ℕ} (hx : x < n) :
    clampIdx ((x : ℤ) + 1) ((n : ℤ) - 1) = min (x + 1) (n - 1) := by
  simp [clampIdx, clamp]
  omega

/-- A radius-1 clamped pass with a symmetric normalized kernel conserves
the total over the range: the two boundary replications cancel. -/
theorem pass_sum_radius_one (g : ℕ → ℝ) (n : ℕ) (hn : 1 ≤ n) :
    ∑ t in Finset.range n,
        (g (clampIdx ((t : ℤ) - 1) ((n : ℤ) - 1)) * kernelNorm 1 0 +
          g (clampIdx ((t : ℤ)) ((n : ℤ) - 1)) * kernelNorm 1 1 +
          g (clampIdx ((t : ℤ) + 1) ((n : ℤ) - 1)) * kernelNorm 1 2) =
      ∑ t in Finset.range n, g t := by
  obtain ⟨m, rfl⟩ : ∃ m, n = m + 1 := ⟨n - 1, by omega⟩
  have hrw : ∀ t ∈ Finset.range (m + 1),
      g (clampIdx ((t : ℤ) - 1) (((m + 1 : ℕ) : ℤ) - 1)) * kernelNorm 1 0 +
        g (clampIdx ((t : ℤ)) (((m + 1 : ℕ) : ℤ) - 1)) * kernelNorm 1 1 +
        g (clampIdx ((t : ℤ) + 1) (((m + 1 : ℕ) : ℤ) - 1)) * kernelNorm 1 2 =
      g (t - 1) * kernelNorm 1 0 + g t * kernelNorm 1 1 +
        g (min (t + 1) m) * kernelNorm 1 2 := by
    intro t ht
    have ht' : t < m + 1 := Finset.mem_range.mp ht
    rw [clampIdx_sub_one ht', clampIdx_self ht', clampIdx_add_one ht']
    norm_num
  rw [Finset.sum_congr rfl hrw]
  rw [Finset.sum_add_distrib, Finset.sum_add_distrib]
  rw [← Finset.sum_mul, ← Finset.sum_mul, ← Finset.sum_mul]
  have hsub : ∑ t in Finset.range (m + 1), g (t - 1) =
      g 0 + ∑ t in Finset.range m, g t := by
    rw [Finset.sum_range_succ']
    simp [add_comm]
  have hmin : ∑ t in Finset.range (m + 1), g (min (t + 1) m) =
      (∑ t in Finset.range m, g (t + 1)) + g m := by
    rw [Finset.sum_range_succ]
    congr 1
    · exact Finset.sum_congr rfl fun t ht => by
        have ht' : t < m := Finset.mem_range.mp ht
        rw [min_eq_left (by omega)]
    · rw [min_eq_right (by omega)]
  rw [hsub, hmin]
  have hsucc : ∑ t in Finset.range m, g (t + 1) =
      (∑ t in Finset.range (m + 1), g t) - g 0 := by
    have := Finset.sum_range_succ' g m
    linarith
  have hlast : ∑ t in Finset.range m, g t =
      (∑ t in Finset.range (m + 1), g t) - g m := by
    have := Finset.sum_range_succ g m
    linarith
  rw [hsucc, hlast]
  have hsym := kernelNorm_one_symm
  have hk : kernelNorm 1 0 + kernelNorm 1 1 + kernelNorm 1 2 = 1 := by
    have := kernelNorm_sum 1
    rw [show 2 * 1 + 1 = 3 from rfl, sum_range_three] at this
    linarith
  linear_combination (∑ t in Finset.range (m + 1), g t) * hk + (g 0 - g m) * hsym

theorem horizontalPass_radius_one (source : ℕ → ℝ) (w y x : ℕ) :
    horizontalPass source w 1 y x =
      source (y * w + clampIdx ((x : ℤ) - 1) ((w : ℤ) - 1)) * kernelNorm 1 0 +
        source (y * w + clampIdx ((x : ℤ)) ((w : ℤ) - 1)) * kernelNorm 1 1 +
        source (y * w + clampIdx ((x : ℤ) + 1) ((w : ℤ) - 1)) * kernelNorm 1 2 := by
  unfold horizontalPass
  rw [show 2 * 1 + 1 = 3 from rfl, sum_range_three]
  push_cast
  ring_nf

theorem verticalPass_radius_one (source : ℕ → ℝ) (w h y x : ℕ) :
    verticalPass source w h 1 y x =
      horizontalPass source w 1 (clampIdx ((y : ℤ) - 1) ((h : ℤ) - 1)) x *
          kernelNorm 1 0 +
        horizontalPass source w 1 (clampIdx ((y : ℤ)) ((h : ℤ) - 1)) x *
          kernelNorm 1 1 +
        horizontalPass source w 1 (clampIdx ((y : ℤ) + 1) ((h : ℤ) - 1)) x *
          kernelNorm 1 2 := by
  unfold verticalPass
  rw [show 2 * 1 + 1 = 3 from rfl, sum_range_three]
  push_cast
  ring_nf

theorem horizontalPass_row_sum (source : ℕ → ℝ) (w : ℕ) (hw : 1 ≤ w) (y : ℕ) :
    ∑ x in Finset.range w, horizontalPass source w 1 y x =
      ∑ x in Finset.range w, source (y * w + x) := by
  have hpass := pass_sum_radius_one (fun t => source (y * w + t)) w hw
  rw [← hpass]
  exact Finset.sum_congr rfl fun x hx => by
    rw [horizontalPass_radius_one]

theorem verticalPass_col_sum (source : ℕ → ℝ) (w h : ℕ) (hh : 1 ≤ h) (x : ℕ) :
    ∑ y in Finset.range h, verticalPass source w h 1 y x =
      ∑ y in Finset.range h, horizontalPass source w 1 y x := by
  have hpass := pass_sum_radius_one (fun t => horizontalPass source w 1 t x) h hh
  rw [← hpass]
  exact Finset.sum_congr rfl fun y hy => by
    rw [verticalPass_radius_one]

/-! ### Claim theorems -/

/-- C1: for every settings value and every luminance field, the grayscale
value written by the tone-mapping loop lies in `[0, 255]`, and the
normalized detail and Sobel fields lie in `[0, 1]` at every pixel. -/
theorem render_output_in_range (st : EffectSettings) (lum : ℕ → ℝ)
    (w h idx : ℕ) (hidx : idx < w * h) :
    (0 ≤ plasterValue st lum w h idx ∧ plasterValue st lum w h idx ≤ 255) ∧
      (0 ≤ normalisedDetail st lum w h idx ∧
        normalisedDetail st lum w h idx ≤ 1) ∧
      (0 ≤ normalisedSobel st lum w h idx ∧
        normalisedSobel st lum w h idx ≤ 1) := by
  unfold plasterValue normalisedDetail normalisedSobel
  exact ⟨toneMapValue_mem st _ _ _, normaliseArray_mem_unit hidx,
    normaliseArray_mem_unit hidx⟩

/-- Witness for C1 at the default settings, a 1 × 1 mid-gray field. -/
theorem render_output_in_range_witness :
    (0 ≤ plasterValue ⟨62, 8, 68, 40, 32, 48, 72, 18, 24, 36⟩
          (fun _ => 128) 1 1 0 ∧
        plasterValue ⟨62, 8, 68, 40, 32, 48, 72, 18, 24, 36⟩
          (fun _ => 128) 1 1 0 ≤ 255) ∧
      (0 ≤ normalisedDetail ⟨62, 8, 68, 40, 32, 48, 72, 18, 24, 36⟩
          (fun _ => 128) 1 1 0 ∧
        normalisedDetail ⟨62, 8, 68, 40, 32, 48, 72, 18, 24, 36⟩
          (fun _ => 128) 1 1 0 ≤ 1) ∧
      (0 ≤ normalisedSobel ⟨62, 8, 68, 40, 32, 48, 72, 18, 24, 36⟩
          (fun _ => 128) 1 1 0 ∧
        normalisedSobel ⟨62, 8, 68, 40, 32, 48, 72, 18, 24, 36⟩
          (fun _ => 128) 1 1 0 ≤ 1) :=
  render_output_in_range ⟨62, 8, 68, 40, 32, 48, 72, 18, 24, 36⟩
    (fun _ => 128) 1 1 0 (by norm_num)

/-- C10: when `smoothness < 9` the derived blur radius is 0, the detail
residual is identically zero, its normalization is the all-zero field,
and the micro-detail term subtracts the same constant
`0.5 · 80 · (clamp(microDetail,0,100)/100)` at every pixel. -/
theorem smoothness_below_nine_detail_constant (st : EffectSettings)
    (lum : ℕ → ℝ) (w h idx : ℕ) (hs : st.smoothness < 9)
    (hidx : idx < w * h) :
    blurRadius st.smoothness = 0 ∧
      (∀ i, detailSourceField st lum w h i = 0) ∧
      normalisedDetail st lum w h idx = 0 ∧
      (normalisedDetail st lum w h idx - 0.5) * 80 * detailStrength st =
        -(0.5 * 80 * (clamp st.microDetail 0 100 / 100)) := by
  have hcl : clamp st.smoothness 0 100 < 9 := by
    calc clamp st.smoothness 0 100 ≤ max 0 st.smoothness := min_le_right _ _
    _ < 9 := max_lt (by norm_num) hs
  have hcl0 : (0 : ℝ) ≤ clamp st.smoothness 0 100 :=
    lo_le_clamp _ 0 100 (by norm_num)
  have hrad : blurRadius st.smoothness = 0 := by
    unfold blurRadius jsRound
    rw [Int.floor_eq_zero_iff, Set.mem_Ico]
    constructor <;> linarith
  have hsm : smoothedField st lum w h = lum := by
    unfold smoothedField
    rw [hrad]
    simp [gaussianBlur]
  have hds : ∀ i, detailSourceField st lum w h i = 0 := by
    intro i
    unfold detailSourceField
    rw [hsm]
    ring
  have hfun : detailSourceField st lum w h = fun _ => (0 : ℝ) := funext hds
  have hnd : normalisedDetail st lum w h idx = 0 := by
    unfold normalisedDetail
    rw [hfun]
    exact normaliseArray_const_zero (Nat.lt_of_le_of_lt (Nat.zero_le idx) hidx) idx
  refine ⟨hrad, hds, hnd, ?_⟩
  rw [hnd]
  unfold detailStrength
  ring

/-- Witness for C10 with smoothness 5 on a 1 × 1 field. -/
theorem smoothness_below_nine_detail_constant_witness :
    blurRadius (EffectSettings.smoothness ⟨62, 8, 68, 40, 5, 48, 72, 18, 24, 36⟩) = 0 ∧
      (∀ i, detailSourceField ⟨62, 8, 68, 40, 5, 48, 72, 18, 24, 36⟩
          (fun _ => 100) 1 1 i = 0) ∧
      normalisedDetail ⟨62, 8, 68, 40, 5, 48, 72, 18, 24, 36⟩
          (fun _ => 100) 1 1 0 = 0 ∧
      (normalisedDetail ⟨62, 8, 68, 40, 5, 48, 72, 18, 24, 36⟩
            (fun _ => 100) 1 1 0 - 0.5) * 80 *
          detailStrength ⟨62, 8, 68, 40, 5, 48, 72, 18, 24, 36⟩ =
        -(0.5 * 80 *
          (clamp (EffectSettings.microDetail ⟨62, 8, 68, 40, 5, 48, 72, 18, 24, 36⟩) 0 100 / 100)) :=
  smoothness_below_nine_detail_constant ⟨62, 8, 68, 40, 5, 48, 72, 18, 24, 36⟩
    (fun _ => 100) 1 1 0 (by norm_num) (by norm_num)

/-- C3: for a non-empty field, `normaliseArray` yields a field with
minimum exactly 0 and maximum exactly 1, unless the input is constant
(`max = min`), in which case the output is all zeros. -/
theorem normaliseArray_min_max (f : ℕ → ℝ) (n : ℕ) (hn : 0 < n) :
    (arrayMax f n ≠ arrayMin f n →
        arrayMin (normaliseArray f n) n = 0 ∧
          arrayMax (normaliseArray f n) n = 1) ∧
      (arrayMax f n = arrayMin f n →
        ∀ i, i < n → normaliseArray f n i = 0) := by
  constructor
  · intro hne
    have hc : ¬(arrayMax f n - arrayMin f n = 0) := fun h => hne (by linarith)
    have hlt : 0 < arrayMax f n - arrayMin f n :=
      lt_of_le_of_ne (by linarith [arrayMin_le_arrayMax (f := f) hn])
        (fun h => hc h.symm)
    constructor
    · apply le_antisymm
      · obtain ⟨i, hi, hval⟩ := exists_arrayMin (f := f) hn
        have : normaliseArray f n i = 0 := by
          unfold normaliseArray
          simp [if_neg hc, hval]
        exact this ▸ arrayMin_le hi
      · exact le_arrayMin hn fun i hi => (normaliseArray_mem_unit hi).1
    · apply le_antisymm
      · exact arrayMax_le hn fun i hi => (normaliseArray_mem_unit hi).2
      · obtain ⟨i, hi, hval⟩ := exists_arrayMax (f := f) hn
        have : normaliseArray f n i = 1 := by
          unfold normaliseArray
          simp only [if_neg hc, hval]
          field_simp
        exact this ▸ le_arrayMax hi
  · intro heq i hi
    have hmin := arrayMin_le (f := f) hi
    have hmax := le_arrayMax (f := f) hi
    have hfi : f i = arrayMin f n := by rw [heq] at hmax; linarith
    unfold normaliseArray
    simp [show arrayMax f n - arrayMin f n = 0 by rw [heq]; ring, hfi]

/-- C4: for positive source dimensions and any zoom, `cropToAspect`
returns a region inside the source bounds whose aspect ratio equals the
target; a wider-than-target source has only its width reduced before
zoom, a narrower one only its height. -/
theorem cropToAspect_bounds_and_aspect (w h ar z : ℝ) (hw : 0 < w)
    (hh : 0 < h) (har : 0 < ar) :
    0 ≤ (cropToAspect w h ar z).offsetX ∧
      0 ≤ (cropToAspect w h ar z).offsetY ∧
      (cropToAspect w h ar z).offsetX + (cropToAspect w h ar z).cropWidth ≤ w ∧
      (cropToAspect w h ar z).offsetY + (cropToAspect w h ar z).cropHeight ≤ h ∧
      0 < (cropToAspect w h ar z).cropWidth ∧
      0 < (cropToAspect w h ar z).cropHeight ∧
      (cropToAspect w h ar z).cropWidth / (cropToAspect w h ar z).cropHeight
        = ar ∧
      (w / h > ar → preCropSize w h ar = (h * ar, h)) ∧
      (¬w / h > ar → preCropSize w h ar = (w, w / ar)) := by
  have hz0 : (0 : ℝ) ≤ clamp z 0 60 := lo_le_clamp z 0 60 (by norm_num)
  have hz1 : (1 : ℝ) ≤ clamp z 0 60 / 100 + 1 := by linarith
  have hzpos : (0 : ℝ) < clamp z 0 60 / 100 + 1 := by linarith
  unfold cropToAspect preCropSize
  by_cases hbr : w / h > ar
  · have hwlt : ar * h < w := by rwa [gt_iff_lt, lt_div_iff hh] at hbr
    simp only [if_pos hbr]
    have hcw_pos : 0 < h * ar / (clamp z 0 60 / 100 + 1) :=
      div_pos (by positivity) hzpos
    have hcw_le : h * ar / (clamp z 0 60 / 100 + 1) ≤ h * ar :=
      div_le_self (by positivity) hz1
    have hch_pos : 0 < h / (clamp z 0 60 / 100 + 1) := div_pos hh hzpos
    have hch_le : h / (clamp z 0 60 / 100 + 1) ≤ h :=
      div_le_self (le_of_lt hh) hz1
    refine ⟨by linarith, by linarith, by linarith, by linarith, hcw_pos,
      hch_pos, ?_, fun _ => trivial, fun hc => absurd hbr hc⟩
    have hzne : clamp z 0 60 / 100 + 1 ≠ 0 := ne_of_gt hzpos
    have hhne : h ≠ 0 := ne_of_gt hh
    field_simp
    ring
  · have hwle : w ≤ ar * h := by
      rw [gt_iff_lt, not_lt, div_le_iff hh] at hbr
      linarith
    simp only [if_neg hbr]
    have hch0_le : w / ar ≤ h := by
      rw [div_le_iff har]
      linarith [hwle]
    have hcw_pos : 0 < w / (clamp z 0 60 / 100 + 1) := div_pos hw hzpos
    have hcw_le : w / (clamp z 0 60 / 100 + 1) ≤ w :=
      div_le_self (le_of_lt hw) hz1
    have hch_pos : 0 < w / ar / (clamp z 0 60 / 100 + 1) :=
      div_pos (div_pos hw har) hzpos
    have hch_le : w / ar / (clamp z 0 60 / 100 + 1) ≤ w / ar :=
      div_le_self (le_of_lt (div_pos hw har)) hz1
    refine ⟨by linarith, by linarith, by linarith, by linarith, hcw_pos,
      hch_pos, ?_, fun hc => absurd hc hbr, fun _ => trivial⟩
    have hzne : clamp z 0 60 / 100 + 1 ≠ 0 := ne_of_gt hzpos
    have hwne : w ≠ 0 := ne_of_gt hw
    have harne : ar ≠ 0 := ne_of_gt har
    field_simp
    ring

/-- Witness for C4: a 2 × 1 source, target aspect 1, zoom 0. -/
theorem cropToAspect_bounds_and_aspect_witness :
    0 ≤ (cropToAspect 2 1 1 0).offsetX ∧
      0 ≤ (cropToAspect 2 1 1 0).offsetY ∧
      (cropToAspect 2 1 1 0).offsetX + (cropToAspect 2 1 1 0).cropWidth ≤ 2 ∧
      (cropToAspect 2 1 1 0).offsetY + (cropToAspect 2 1 1 0).cropHeight ≤ 1 ∧
      0 < (cropToAspect 2 1 1 0).cropWidth ∧
      0 < (cropToAspect 2 1 1 0).cropHeight ∧
      (cropToAspect 2 1 1 0).cropWidth / (cropToAspect 2 1 1 0).cropHeight
        = 1 ∧
      ((2 : ℝ) / 1 > 1 → preCropSize 2 1 1 = (1 * 1, 1)) ∧
      (¬(2 : ℝ) / 1 > 1 → preCropSize 2 1 1 = (2, 2 / 1)) :=
  cropToAspect_bounds_and_aspect 2 1 1 0 (by norm_num) (by norm_num)
    (by norm_num)

/-- Witness for C3 on the two-sample field `i ↦ i`. -/
theorem normaliseArray_min_max_witness :
    (arrayMax (fun i => (i : ℝ)) 2 ≠ arrayMin (fun i => (i : ℝ)) 2 →
        arrayMin (normaliseArray (fun i => (i : ℝ)) 2) 2 = 0 ∧
          arrayMax (normaliseArray (fun i => (i : ℝ)) 2) 2 = 1) ∧
      (arrayMax (fun i => (i : ℝ)) 2 = arrayMin (fun i => (i : ℝ)) 2 →
        ∀ i, i < 2 → normaliseArray (fun i => (i : ℝ)) 2 i = 0) :=
  normaliseArray_min_max (fun i => (i : ℝ)) 2 (by norm_num)

/-- C8: `applySobel` leaves the one-pixel border at zero for every input;
on a constant field the output is zero at interior pixels as well; and at
interior pixels the value is the gradient magnitude `sqrt(gx² + gy²)`. -/
theorem applySobel_border_uniform_interior (map : ℕ → ℝ) (width height : ℕ)
    (c : ℝ) (idx : ℕ) :
    (¬(1 ≤ idx / width ∧ idx / width + 1 < height ∧
          1 ≤ idx % width ∧ idx % width + 1 < width) →
        applySobel map width height idx = 0) ∧
      ((∀ j, map j = c) → applySobel map width height idx = 0) ∧
      ((1 ≤ idx / width ∧ idx / width + 1 < height ∧
          1 ≤ idx % width ∧ idx % width + 1 < width) →
        applySobel map width height idx =
          Real.sqrt (sobelGx map width (idx / width) (idx % width) ^ 2 +
            sobelGy map width (idx / width) (idx % width) ^ 2)) := by
  refine ⟨fun hb => ?_, fun hconst => ?_, fun hin => ?_⟩
  · simp only [applySobel]
    rw [if_neg hb]
  · have hgx : sobelGx map width (idx / width) (idx % width) = 0 := by
      unfold sobelGx
      simp only [hconst]
      simp [Finset.sum_range_succ, kernelX]
    have hgy : sobelGy map width (idx / width) (idx % width) = 0 := by
      unfold sobelGy
      simp only [hconst]
      simp [Finset.sum_range_succ, kernelY]
      ring
    simp only [applySobel]
    by_cases hin : 1 ≤ idx / width ∧ idx / width + 1 < height ∧
        1 ≤ idx % width ∧ idx % width + 1 < width
    · rw [if_pos hin, hgx, hgy]
      simp
    · rw [if_neg hin]
  · simp only [applySobel]
    rw [if_pos hin]

/-- Witness for C8 on the constant field `0` over a 3 × 3 grid: zero at
the center pixel (uniform case) and at the corner pixel (border case). -/
theorem applySobel_border_uniform_interior_witness :
    applySobel (fun _ => (0 : ℝ)) 3 3 4 = 0 ∧
      applySobel (fun _ => (0 : ℝ)) 3 3 0 = 0 :=
  ⟨(applySobel_border_uniform_interior (fun _ => (0 : ℝ)) 3 3 0 4).2.1
      fun _ => rfl,
    (applySobel_border_uniform_interior (fun _ => (0 : ℝ)) 3 3 0 0).1
      (by decide)⟩

/-- C5: for every contrast parameter `c` reachable from the depth setting
(`30 ≤ c ≤ 120`) and all inputs `v₁ ≤ v₂`,
`contrastTransform v₁ c ≤ contrastTransform v₂ c`. -/
theorem contrastTransform_monotone (c v₁ v₂ : ℝ) (hc₁ : 30 ≤ c)
    (hc₂ : c ≤ 120) (hv : v₁ ≤ v₂) :
    contrastTransform v₁ c ≤ contrastTransform v₂ c := by
  unfold contrastTransform
  apply clamp_mono
  have hfac : 0 ≤ 259 * (c + 255) / (255 * (259 - c)) := by
    apply div_nonneg <;> nlinarith
  nlinarith [mul_le_mul_of_nonneg_left (show v₁ - 128 ≤ v₂ - 128 by linarith) hfac]

/-- Witness for C5 at `c = 30`, `v₁ = 10`, `v₂ = 20`. -/
theorem contrastTransform_monotone_witness :
    contrastTransform 10 30 ≤ contrastTransform 20 30 :=
  contrastTransform_monotone 30 10 20 (by norm_num) (by norm_num) (by norm_num)

/-- C6: the two branches of the soft-light blend agree at the boundary
`c = 0.5`, where both equal the base value `b`. -/
theorem softLight_branches_agree_at_half (b : ℝ) (hb₀ : 0 ≤ b)
    (hb₁ : b ≤ 1) :
    softLightLow b (1 / 2) = softLightHigh b (1 / 2) ∧
      softLightLow b (1 / 2) = b := by
  unfold softLightLow softLightHigh
  constructor <;> ring

/-- Witness for C6 at `b = 1/4`. -/
theorem softLight_branches_agree_at_half_witness :
    softLightLow (1 / 4) (1 / 2) = softLightHigh (1 / 4) (1 / 2) ∧
      softLightLow (1 / 4) (1 / 2) = 1 / 4 :=
  softLight_branches_agree_at_half (1 / 4) (by norm_num) (by norm_num)

/-- C7: `gaussianBlur` with radius 0 returns its input unchanged, and the
radius derived from the smoothness setting always lies in `{0, …, 6}`. -/
theorem gaussianBlur_radius_zero_identity_and_radius_range :
    (∀ (source : ℕ → ℝ) (width height : ℕ),
        gaussianBlur source width height 0 = source) ∧
      ∀ smoothness : ℝ,
        0 ≤ blurRadius smoothness ∧ blurRadius smoothness ≤ 6 := by
  constructor
  · intro source width height
    simp [gaussianBlur]
  · intro s
    have h₀ : (0 : ℝ) ≤ clamp s 0 100 := lo_le_clamp s 0 100 (by norm_num)
    have h₁ : clamp s 0 100 ≤ 100 := clamp_le_hi s 0 100
    unfold blurRadius jsRound
    constructor
    · rw [Int.le_floor]
      push_cast
      linarith
    · have : (Int.floor (clamp s 0 100 / 18 + 1 / 2) : ℤ) < 7 := by
        rw [Int.floor_lt]
        push_cast
        linarith
      omega


/-- C9: for a fully opaque source image, two settings values that differ
only in `backgroundLift` render pixel-identical frames: the background
gradient is completely overwritten by the full-frame draw of the opaque
source and the subsequent full-frame `putImageData`, and no later stage
reads `backgroundLift`. -/
theorem backgroundLift_no_influence (st : EffectSettings) (bl : ℝ)
    (src : ℕ → ℕ → Pixel) (srcW srcH : ℕ)
    (hcover : ∀ x y, (src x y).a = 255) :
    renderPlasterEffect st src srcW srcH =
      renderPlasterEffect { st with backgroundLift := bl } src srcW srcH := by
  unfold renderPlasterEffect
  rw [drawnLayer_covers st src srcW srcH hcover,
    drawnLayer_covers { st with backgroundLift := bl } src srcW srcH hcover]
  have hzoom : ({ st with backgroundLift := bl } : EffectSettings).macroZoom
      = st.macroZoom := rfl
  have htone : tonePassLayer { st with backgroundLift := bl } =
      tonePassLayer st := rfl
  have hvig : vignetteLayer { st with backgroundLift := bl } =
      vignetteLayer st := rfl
  have hstand : standLayer { st with backgroundLift := bl } =
      standLayer st := rfl
  rw [hzoom, htone, hvig, hstand]

/-- Witness for C9: a 1 × 1 opaque white source, default settings against
background lift 0. -/
theorem backgroundLift_no_influence_witness :
    renderPlasterEffect ⟨62, 8, 68, 40, 32, 48, 72, 18, 24, 36⟩
        (fun _ _ => ⟨255, 255, 255, 255⟩) 1 1 =
      renderPlasterEffect
        { (⟨62, 8, 68, 40, 32, 48, 72, 18, 24, 36⟩ : EffectSettings) with
          backgroundLift := 0 }
        (fun _ _ => ⟨255, 255, 255, 255⟩) 1 1 :=
  backgroundLift_no_influence ⟨62, 8, 68, 40, 32, 48, 72, 18, 24, 36⟩ 0
    (fun _ _ => ⟨255, 255, 255, 255⟩) 1 1 (fun _ _ => rfl)

/-- C2 (amended): for every scalar field, `gaussianBlur` with radius 1
conserves the total of the samples exactly: the kernel weights sum to 1
and the radius-1 replicate-border corrections cancel. -/
theorem gaussianBlur_radius_one_sum_conserved (source : ℕ → ℝ) (w h : ℕ) :
    fieldSum (gaussianBlur source w h 1) w h = fieldSum source w h := by
  rcases Nat.eq_zero_or_pos w with hw | hw
  · subst hw; simp [fieldSum]
  rcases Nat.eq_zero_or_pos h with hh | hh
  · subst hh; simp [fieldSum]
  unfold fieldSum gaussianBlur
  rw [if_neg one_ne_zero]
  have hidx : ∀ y ∈ Finset.range h, ∀ x ∈ Finset.range w,
      verticalPass source w h 1 ((y * w + x) / w) ((y * w + x) % w) =
        verticalPass source w h 1 y x := by
    intro y hy x hx
    have hx' : x < w := Finset.mem_range.mp hx
    have hdiv : (y * w + x) / w = y := by
      rw [mul_comm, Nat.mul_add_div hw, Nat.div_eq_of_lt hx']
      omega
    have hmod : (y * w + x) % w = x := by
      rw [mul_comm, Nat.mul_add_mod, Nat.mod_eq_of_lt hx']
    rw [hdiv, hmod]
  rw [Finset.sum_congr rfl fun y hy =>
    Finset.sum_congr rfl fun x hx => hidx y hy x hx]
  rw [Finset.sum_comm]
  rw [Finset.sum_congr rfl fun x hx => verticalPass_col_sum source w h hh x]
  rw [Finset.sum_comm]
  exact Finset.sum_congr rfl fun y hy => horizontalPass_row_sum source w hw y


/-- C2 counterexample: with radius 2 on a 4 × 1 field `[0,1,0,0]`, the
blurred total differs from the input total, so exact sum conservation
fails for radius ≥ 2. -/
theorem gaussianBlur_radius_two_not_sum_conserving :
    fieldSum (gaussianBlur (fun i => if i = 1 then (1 : ℝ) else 0) 4 1 2) 4 1 ≠
      fieldSum (fun i => if i = 1 then (1 : ℝ) else 0) 4 1 := by
  have hS := kernelSum_pos 2
  have h0 : horizontalPass (fun i => if i = 1 then (1 : ℝ) else 0) 4 2 0 0 =
      kernelNorm 2 3 := by
    unfold horizontalPass
    rw [show 2 * 2 + 1 = 5 from rfl]
    rw [Finset.sum_range_succ, Finset.sum_range_succ, Finset.sum_range_succ,
      Finset.sum_range_succ, Finset.sum_range_succ, Finset.sum_range_zero]
    norm_num [clampIdx, clamp, show (0:ℤ).toNat = 0 from rfl,
      show (1:ℤ).toNat = 1 from rfl, show (2:ℤ).toNat = 2 from rfl,
      show (3:ℤ).toNat = 3 from rfl]
  have h1 : horizontalPass (fun i => if i = 1 then (1 : ℝ) else 0) 4 2 0 1 =
      kernelNorm 2 2 := by
    unfold horizontalPass
    rw [show 2 * 2 + 1 = 5 from rfl]
    rw [Finset.sum_range_succ, Finset.sum_range_succ, Finset.sum_range_succ,
      Finset.sum_range_succ, Finset.sum_range_succ, Finset.sum_range_zero]
    norm_num [clampIdx, clamp, show (0:ℤ).toNat = 0 from rfl,
      show (1:ℤ).toNat = 1 from rfl, show (2:ℤ).toNat = 2 from rfl,
      show (3:ℤ).toNat = 3 from rfl]
  have h2 : horizontalPass (fun i => if i = 1 then (1 : ℝ) else 0) 4 2 0 2 =
      kernelNorm 2 1 := by
    unfold horizontalPass
    rw [show 2 * 2 + 1 = 5 from rfl]
    rw [Finset.sum_range_succ, Finset.sum_range_succ, Finset.sum_range_succ,
      Finset.sum_range_succ, Finset.sum_range_succ, Finset.sum_range_zero]
    norm_num [clampIdx, clamp, show (0:ℤ).toNat = 0 from rfl,
      show (1:ℤ).toNat = 1 from rfl, show (2:ℤ).toNat = 2 from rfl,
      show (3:ℤ).toNat = 3 from rfl]
  have h3 : horizontalPass (fun i => if i = 1 then (1 : ℝ) else 0) 4 2 0 3 =
      kernelNorm 2 0 := by
    unfold horizontalPass
    rw [show 2 * 2 + 1 = 5 from rfl]
    rw [Finset.sum_range_succ, Finset.sum_range_succ, Finset.sum_range_succ,
      Finset.sum_range_succ, Finset.sum_range_succ, Finset.sum_range_zero]
    norm_num [clampIdx, clamp, show (0:ℤ).toNat = 0 from rfl,
      show (1:ℤ).toNat = 1 from rfl, show (2:ℤ).toNat = 2 from rfl,
      show (3:ℤ).toNat = 3 from rfl]
  have hv : ∀ x, verticalPass (fun i => if i = 1 then (1 : ℝ) else 0) 4 1 2 0 x =
      horizontalPass (fun i => if i = 1 then (1 : ℝ) else 0) 4 2 0 x := by
    intro x
    unfold verticalPass
    push_cast
    have hcl : ∀ i ∈ Finset.range 5,
        horizontalPass (fun i => if i = 1 then (1 : ℝ) else 0) 4 2
            (clampIdx (0 + (i : ℤ) - 2) 0) x * kernelNorm 2 i =
          horizontalPass (fun i => if i = 1 then (1 : ℝ) else 0) 4 2 0 x *
            kernelNorm 2 i := by
      intro i hi
      have hz : clampIdx (0 + (i : ℤ) - 2) 0 = 0 := by
        simp [clampIdx, clamp]
      rw [hz]
    rw [Finset.sum_congr rfl hcl, ← Finset.mul_sum,
      show Finset.range 5 = Finset.range (2 * 2 + 1) from rfl,
      kernelNorm_sum 2, mul_one]
  have hRHS : fieldSum (fun i => if i = 1 then (1 : ℝ) else 0) 4 1 = 1 := by
    unfold fieldSum
    rw [Finset.sum_range_one]
    rw [Finset.sum_range_succ, Finset.sum_range_succ, Finset.sum_range_succ,
      Finset.sum_range_one]
    norm_num
  have hLHS : fieldSum (gaussianBlur (fun i => if i = 1 then (1 : ℝ) else 0) 4 1 2) 4 1 =
      kernelNorm 2 3 + kernelNorm 2 2 + kernelNorm 2 1 + kernelNorm 2 0 := by
    unfold fieldSum gaussianBlur
    rw [if_neg (by norm_num)]
    rw [Finset.sum_range_one]
    rw [Finset.sum_range_succ, Finset.sum_range_succ, Finset.sum_range_succ,
      Finset.sum_range_one]
    norm_num [hv, h0, h1, h2, h3]
  intro heq
  rw [hLHS, hRHS] at heq
  have hsum5 : kernelSum 2 =
      gaussKernel 2 0 + gaussKernel 2 1 + gaussKernel 2 2 + gaussKernel 2 3 +
        gaussKernel 2 4 := by
    unfold kernelSum
    rw [show 2 * 2 + 1 = 5 from rfl]
    rw [Finset.sum_range_succ, Finset.sum_range_succ, Finset.sum_range_succ,
      Finset.sum_range_succ, Finset.sum_range_one]
  unfold kernelNorm at heq
  rw [div_add_div_same, div_add_div_same, div_add_div_same,
    div_eq_one_iff_eq (ne_of_gt hS)] at heq
  rw [hsum5] at heq
  linarith [gaussKernel_pos 2 4]


end Plaster

